import Mathlib

/-!
Verification of the silex-explorer-py data-wrangling layer.

This file gives a shallow embedding in Lean 4 of the pure computational
core of the repository (the OpenSILEX exploration client):

* `chunk_list` and the fan-out/fan-in merge of
  `get_data_by_os_uri_variable` (experiment/chunk_data_exp.py);
* `fetch_chunk_data` and the exception handling of the collection loop;
* the factor-level row filter of `get_os_by_exp` (experiment/ls_os_exp.py);
* `insert_into_uri_name`, `check_uri_name_consistency`, `getURIbyName`
  and `getNamesByURI` (uri_name_manager/uri_name_table.py);
* `replicate_scientific_objects` (visualisation/replicate_scientific_objects.py);
* `export_data_by_variable_to_csv` (experiment/chunk_data_exp.py);
* `login` (auth/auth.py).

Python strings that get split character-by-character are modelled as
`List Char`; strings that are only compared for equality are modelled as
Lean `String`.  pandas DataFrames are modelled as lists of rows; `NaN`
cells as `Option.none`.  HTTP traffic is modelled by passing the decoded
response (or the raised network exception) as an explicit argument.
-/

/-! ## Python string primitives -/

/-- Python `str.split(sep)` for a single-character separator, on
character lists.  Like Python's `split`, it always returns at least one
(possibly empty) part: `"".split(",") == [""]`, `"a,".split(",") == ["a", ""]`. -/
def pySplit (sep : Char) : List Char → List (List Char)
  | [] => [[]]
  | c :: cs =>
    if c = sep then
      [] :: pySplit sep cs
    else
      match pySplit sep cs with
      | [] => [[c]]
      | p :: ps => (c :: p) :: ps

/-- Python `str.split(sep)` on Lean strings (single-character separator). -/
def pySplitStr (sep : Char) (s : String) : List String :=
  (pySplit sep s.toList).map (fun l => ⟨l⟩)

/-! ## chunk_list (experiment/chunk_data_exp.py, lines 173-177)

```python
def chunk_list(data_list, chunk_size):
    for i in range(0, len(data_list), chunk_size):
        chunk = data_list[i:i + chunk_size]
        yield chunk
```

The generator yields the slices `data_list[0:n]`, `data_list[n:2n]`, ...
For `chunk_size = 0` Python's `range` raises `ValueError`; all call sites
use the constant `40`, and the claims quantify over `chunk_size > 0`,
so the `chunk_size = 0` branch below (returning `[]`) is outside the
modelled domain. -/

def chunk_list : List α → Nat → List (List α)
  | [], _ => []
  | _ :: _, 0 => []
  | a :: as, n + 1 =>
    ((a :: as).take (n + 1)) :: chunk_list ((a :: as).drop (n + 1)) (n + 1)
termination_by l _ => l.length
decreasing_by
  simp only [List.length_drop, List.length_cons]
  exact Nat.sub_lt (Nat.succ_pos _) (Nat.succ_pos _)

theorem chunk_list_cons_succ (a : α) (as : List α) (n : Nat) :
    chunk_list (a :: as) (n + 1) =
      ((a :: as).take (n + 1)) :: chunk_list ((a :: as).drop (n + 1)) (n + 1) := by
  rw [chunk_list]

theorem chunk_list_length_le :
    ∀ (l : List α) (n : Nat), ∀ c ∈ chunk_list l n, c.length ≤ n := by
  intro l n
  induction l, n using chunk_list.induct with
  | case1 n => simp [chunk_list]
  | case2 a as => simp [chunk_list]
  | case3 a as n ih =>
    intro c hc
    rw [chunk_list_cons_succ, List.mem_cons] at hc
    rcases hc with hc | hc
    · subst hc
      simp
    · exact ih c hc

theorem chunk_list_flatten :
    ∀ (l : List α) (n : Nat), 0 < n → (chunk_list l n).flatten = l := by
  intro l n
  induction l, n using chunk_list.induct with
  | case1 n => simp [chunk_list]
  | case2 a as => simp
  | case3 a as n ih =>
    intro _
    rw [chunk_list_cons_succ, List.flatten_cons, ih (Nat.succ_pos n)]
    exact List.take_append_drop (n + 1) (a :: as)

/-- `df_os['URI'].dropna().tolist()` (chunk_data_exp.py line 123): the
non-null entries of the `URI` column, in order. -/
def os_uris_of (uri_col : List (Option String)) : List String :=
  uri_col.filterMap id

/-- Claim C2: for every list `l` and chunk size `n > 0`, `chunk_list l n`
yields sublists each of length at most `n` whose concatenation in yield
order is exactly `l`; in particular, `get_data_by_os_uri_variable` fans
out over chunks of at most 40 URIs that cover every (non-null) URI of
the input column exactly once. -/
theorem chunk_list_correct (l : List α) (n : Nat) (hn : 0 < n) :
    ((∀ c ∈ chunk_list l n, c.length ≤ n) ∧ (chunk_list l n).flatten = l) ∧
      (∀ uri_col : List (Option String),
        (∀ c ∈ chunk_list (os_uris_of uri_col) 40, c.length ≤ 40) ∧
          (chunk_list (os_uris_of uri_col) 40).flatten = os_uris_of uri_col) := by
  refine ⟨⟨chunk_list_length_le l n, chunk_list_flatten l n hn⟩, ?_⟩
  intro uri_col
  exact ⟨chunk_list_length_le _ _, chunk_list_flatten _ _ (by norm_num)⟩

/-- Witness for `chunk_list_correct` at a concrete input. -/
theorem chunk_list_correct_witness :
    ((∀ c ∈ chunk_list ["a", "b", "c"] 2, c.length ≤ 2) ∧
        (chunk_list ["a", "b", "c"] 2).flatten = ["a", "b", "c"]) ∧
      (∀ uri_col : List (Option String),
        (∀ c ∈ chunk_list (os_uris_of uri_col) 40, c.length ≤ 40) ∧
          (chunk_list (os_uris_of uri_col) 40).flatten = os_uris_of uri_col) :=
  chunk_list_correct ["a", "b", "c"] 2 (by decide)

/-! ## The fan-out/fan-in merge (experiment/chunk_data_exp.py, lines 132-152)

`get_data_by_os_uri_variable` submits `fetch_chunk_data` for every chunk
to a `ThreadPoolExecutor`, iterates `as_completed(future_to_chunk)` and,
under `all_results_lock`, runs `all_results.extend(data)`.  Each chunk is
submitted exactly once, and the lock serialises the `extend` calls, so
`all_results` is the concatenation of the per-chunk results in completion
order — some permutation of the chunk list.  The per-chunk fetch is
modelled as a pure function `fetch : List String → List DataRecord`
(same URIs, same records), as the claim prescribes. -/

/-- One record of the GraphQL `data` array: `target`, `variable`,
`value`, `date` (chunk_data_exp.py lines 23-27). -/
structure DataRecord where
  target : String
  varUri : String
  value : String
  date : String
deriving DecidableEq

/-- The `all_results` list built by the collection loop when the chunk
results arrive in the order `order` (completion order): the loop body
`all_results.extend(data)` under the lock. -/
def all_results_merged (fetch : List String → List DataRecord)
    (order : List (List String)) : List DataRecord :=
  order.foldl (fun acc chunk => acc ++ fetch chunk) []

/-- The naive sequential reference: fetch every chunk of
`chunk_list uris 40` in order and concatenate. -/
def sequential_fetch (fetch : List String → List DataRecord)
    (uris : List String) : List DataRecord :=
  ((chunk_list uris 40).map fetch).flatten

theorem foldl_extend_eq_flatten (fetch : List String → List DataRecord) :
    ∀ (order : List (List String)) (acc : List DataRecord),
      order.foldl (fun acc chunk => acc ++ fetch chunk) acc = acc ++ (order.map fetch).flatten := by
  intro order
  induction order with
  | nil => simp
  | cons c cs ih =>
    intro acc
    simp only [List.foldl_cons, List.map_cons, List.flatten_cons, ih, List.append_assoc]

/-- Claim C1: the concurrent chunked fetch refines the naive sequential
one — for every URI list and every (modelled, pure) per-chunk fetch
function, whenever the completion order `order` is a permutation of
`chunk_list uris 40`, the merged `all_results` equals, as a multiset of
records, the in-order concatenation of the per-chunk fetches. -/
theorem concurrent_fetch_equiv_sequential
    (fetch : List String → List DataRecord) (uris : List String)
    (order : List (List String))
    (h : order.Perm (chunk_list uris 40)) :
    (all_results_merged fetch order : Multiset DataRecord) =
      (sequential_fetch fetch uris : Multiset DataRecord) := by
  rw [Multiset.coe_eq_coe, all_results_merged, foldl_extend_eq_flatten, List.nil_append,
    sequential_fetch]
  exact (h.map fetch).flatten

/-- Witness for `concurrent_fetch_equiv_sequential`: two chunks arriving
in reversed completion order. -/
theorem concurrent_fetch_equiv_sequential_witness :
    (all_results_merged
        (fun c => c.map (fun u => DataRecord.mk u "v" "1" "d"))
        (List.reverse (chunk_list (List.replicate 41 "u") 40)) : Multiset DataRecord) =
      (sequential_fetch
        (fun c => c.map (fun u => DataRecord.mk u "v" "1" "d"))
        (List.replicate 41 "u") : Multiset DataRecord) :=
  concurrent_fetch_equiv_sequential _ _ _ (List.reverse_perm _)

/-! ## Exception handling of the collection loop (chunk_data_exp.py, lines 44-54 and 141-152)

`fetch_chunk_data` raises `APIRequestError` on a non-200 status code
(lines 50-52); a fetch outcome is therefore modelled as
`Except String (List DataRecord)`.  The collection loop is

```python
for i, future in enumerate(as_completed(future_to_chunk), start=1):
    try:
        data = future.result()
        with all_results_lock:
            all_results.extend(data)
    except Exception as exc:
        chunk = future_to_chunk[future]
        print(f"❌ Chunk {chunk} generated an exception: {exc}")
```

The `except Exception` clause catches the re-raised exception of every
failed future, prints it, and continues: no exception escapes the loop,
and `get_data_by_os_uri_variable` returns normally. -/

/-- The decoded response of the chunk POST: status code, body text, and
the `ScientificObject` array, each element's `data` field being `some`
list when present and a list, else `none` (lines 45-49). -/
structure ChunkResponse where
  status : Nat
  text : String
  objects : List (Option (List DataRecord))

/-- `fetch_chunk_data` (lines 13-54): on status 200 it concatenates the
`data` arrays of the returned objects; otherwise it raises
`APIRequestError("Error: {status} - {text}")`. -/
def fetch_chunk_data (r : ChunkResponse) : Except String (List DataRecord) :=
  if r.status = 200 then
    Except.ok ((r.objects.filterMap id).flatten)
  else
    Except.error ("Error: " ++ toString r.status ++ " - " ++ r.text)

/-- The collection loop of `get_data_by_os_uri_variable` (lines 141-152)
applied to the chunk outcomes in completion order: `ok` data is merged
into `all_results`; an exception is caught, printed and dropped. -/
def collect_chunk_results (results : List (Except String (List DataRecord))) :
    List DataRecord :=
  results.foldl
    (fun acc r => match r with
      | Except.ok data => acc ++ data
      | Except.error _ => acc) []

/-- The overall outcome of the fetch phase of `get_data_by_os_uri_variable`:
because every exception is caught inside the loop, the function always
returns normally (`Except.ok`) with the collected results. -/
def get_data_fetch_outcome (results : List (Except String (List DataRecord))) :
    Except String (List DataRecord) :=
  Except.ok (collect_chunk_results results)

/-- Counterexample to claim C3: a chunk whose fetch fails with status 500
makes `fetch_chunk_data` raise, yet the outcome of
`get_data_by_os_uri_variable`'s collection loop is a normal return
(`Except.ok []`), not the propagated exception: the loop's
`except Exception` clause swallows it. -/
theorem failed_chunk_does_not_propagate :
    fetch_chunk_data ⟨500, "ISE", []⟩ = Except.error "Error: 500 - ISE" ∧
      get_data_fetch_outcome [fetch_chunk_data ⟨500, "ISE", []⟩] =
        Except.ok ([] : List DataRecord) := by
  constructor
  · rfl
  · rfl

theorem foldl_collect_eq_flatten :
    ∀ (results : List (Except String (List DataRecord))) (acc : List DataRecord),
      results.foldl
          (fun acc r => match r with
            | Except.ok data => acc ++ data
            | Except.error _ => acc) acc =
        acc ++ (results.filterMap Except.toOption).flatten := by
  intro results
  induction results with
  | nil => simp
  | cons r rs ih =>
    intro acc
    cases r with
    | ok data => simp [List.filterMap_cons, Except.toOption, ih, List.append_assoc]
    | error e => simp [List.filterMap_cons, Except.toOption, ih]

/-- Claim C3 as amended: there is indeed no retry, backoff or recovery —
each chunk is fetched exactly once — but a failed chunk's exception does
not propagate: it is caught and logged inside the collection loop, and
`get_data_by_os_uri_variable` returns normally with the concatenation of
the successful chunks' data only. -/
theorem get_data_swallows_chunk_errors
    (results : List (Except String (List DataRecord))) :
    get_data_fetch_outcome results =
      Except.ok ((results.filterMap Except.toOption).flatten) := by
  rw [get_data_fetch_outcome, collect_chunk_results, foldl_collect_eq_flatten]
  rfl

/-! ## Factor-level filtering in get_os_by_exp (package/experiment/ls_os_exp.py)

The wide table is built row by row; the factor column `F` of a row
accumulates the labels of the row's factor levels (line 125):

```python
row[factor_name] = row.get(factor_name, '') + (', ' if row.get(factor_name) else '') + factor_level_label
```

so a cell with labels `[A, B]` holds the string `"A, B"`.  The filter
(lines 148-159) then keeps the rows where

```python
isinstance(x, str) and factor_level in x.split(',')
```

Cells are `List Char`; a row that lacks the factor holds `NaN`,
modelled as `none` (not a string, hence dropped by the filter). -/

/-- The accumulated factor cell for the labels of one row (ls_os_exp.py
line 125): start from `''` and append `', ' + label`, the separator only
when the cell is already non-empty. -/
def buildFactorCell (labels : List (List Char)) : List Char :=
  labels.foldl
    (fun cell label => cell ++ (if cell = [] then [] else [',', ' ']) ++ label) []

/-- The filter predicate of line 156:
`isinstance(x, str) and factor_level in x.split(',')`. -/
def factorLevelKeep (cell : Option (List Char)) (level : List Char) : Bool :=
  match cell with
  | none => false
  | some s => (pySplit ',' s).contains level

/-- The row filter `df = df[df[factor].apply(lambda x: ...)]` of
ls_os_exp.py line 156, on the factor column of the rows. -/
def get_os_factor_filter (cells : List (Option (List Char))) (level : List Char) :
    List (Option (List Char)) :=
  cells.filter (fun c => factorLevelKeep c level)

/-- Counterexample to claim C4: a row whose factor cell lists the labels
`A` and `B` (cell `"A, B"`) is dropped when filtering on level `B`,
because `"A, B".split(',') == ["A", " B"]` and `"B" != " B"`: the claimed
completeness of the factor-level filter fails for every label after the
first. -/
theorem factor_filter_misses_second_label :
    buildFactorCell [['A'], ['B']] = ['A', ',', ' ', 'B'] ∧
      ['B'] ∈ [['A'], ['B']] ∧
      factorLevelKeep (some (buildFactorCell [['A'], ['B']])) ['B'] = false ∧
      get_os_factor_filter [some (buildFactorCell [['A'], ['B']])] ['B'] = [] := by
  refine ⟨by decide, by decide, by decide, by decide⟩

theorem pySplit_no_sep {sep : Char} : ∀ {x : List Char}, sep ∉ x → pySplit sep x = [x] := by
  intro x
  induction x with
  | nil => intro _; rfl
  | cons c cs ih =>
    intro h
    have hc : ¬c = sep := fun hcs => h (hcs ▸ List.mem_cons_self c cs)
    have hcs : sep ∉ cs := fun hm => h (List.mem_cons_of_mem c hm)
    simp only [pySplit, if_neg hc, ih hcs]

theorem pySplit_cons_of_ne {sep c : Char} (hc : ¬c = sep) (cs : List Char) :
    pySplit sep (c :: cs) =
      match pySplit sep cs with
      | [] => [[c]]
      | p :: ps => (c :: p) :: ps := by
  simp [pySplit, if_neg hc]

theorem pySplit_append_sep {sep : Char} :
    ∀ {x : List Char} (y : List Char), sep ∉ x →
      pySplit sep (x ++ sep :: y) = x :: pySplit sep y := by
  intro x
  induction x with
  | nil => intro y _; simp [pySplit]
  | cons c cs ih =>
    intro y h
    have hc : ¬c = sep := fun hcs => h (hcs ▸ List.mem_cons_self c cs)
    have hcs : sep ∉ cs := fun hm => h (List.mem_cons_of_mem c hm)
    rw [List.cons_append, pySplit_cons_of_ne hc, ih y hcs]

/-- The tail of a factor cell: `", label"` for every further label. -/
def factorCellTail (labels : List (List Char)) : List Char :=
  (labels.map (fun x => ',' :: ' ' :: x)).flatten

theorem buildFactorCell_go (l : List Char) (hl : l ≠ []) :
    ∀ labels : List (List Char),
      labels.foldl
          (fun cell label => cell ++ (if cell = [] then [] else [',', ' ']) ++ label) l =
        l ++ factorCellTail labels := by
  intro labels
  induction labels generalizing l with
  | nil => simp [factorCellTail]
  | cons x xs ih =>
    simp only [List.foldl_cons, if_neg hl, factorCellTail, List.map_cons, List.flatten_cons]
    rw [ih (l ++ [',', ' '] ++ x) (by simp)]
    simp [factorCellTail]

theorem buildFactorCell_cons (l : List Char) (ls : List (List Char)) (hl : l ≠ []) :
    buildFactorCell (l :: ls) = l ++ factorCellTail ls := by
  rw [buildFactorCell, List.foldl_cons]
  simp only [if_pos rfl, List.append_nil, List.nil_append]
  exact buildFactorCell_go l hl ls

theorem pySplit_factorCell (l : List Char) (ls : List (List Char)) (hl : ',' ∉ l)
    (hls : ∀ x ∈ ls, ',' ∉ x) :
    pySplit ',' (l ++ factorCellTail ls) = l :: ls.map (fun x => ' ' :: x) := by
  induction ls generalizing l with
  | nil =>
    simp only [factorCellTail, List.map_nil, List.flatten_nil, List.append_nil]
    exact pySplit_no_sep hl
  | cons x xs ih =>
    have hx : ',' ∉ x := hls x (List.mem_cons_self x xs)
    have hxs : ∀ y ∈ xs, ',' ∉ y := fun y hy => hls y (List.mem_cons_of_mem x hy)
    have hsx : ',' ∉ (' ' :: x) := by
      intro hm
      rcases List.mem_cons.mp hm with h | h
      · exact absurd h.symm (by decide)
      · exact hx h
    simp only [factorCellTail, List.map_cons, List.flatten_cons]
    have : l ++ ((',' :: ' ' :: x) ++ (xs.map (fun y => ',' :: ' ' :: y)).flatten) =
        l ++ ',' :: ((' ' :: x) ++ factorCellTail xs) := by
      simp [factorCellTail]
    rw [this, pySplit_append_sep _ hl, ih (' ' :: x) hsx hxs]

/-- Claim C4 as amended: the filter of `get_os_by_exp` keeps exactly the
rows whose factor cell, split on `','` with no whitespace stripping,
contains the filter level as an exact element.  Because the cell joins
its labels with `', '`, this matches precisely the rows whose FIRST
label equals the level (labels after the first are only matched with a
leading space prepended); every kept row does list the level among its
labels, so the filter is sound but not complete. -/
theorem factor_filter_keeps_first_label
    (labels : List (List Char)) (level : List Char)
    (hlab : ∀ l ∈ labels, ',' ∉ l)
    (hhd : ∀ l, labels.head? = some l → l ≠ [])
    (hsp : level.head? ≠ some ' ') (hlev : level ≠ []) :
    (factorLevelKeep (some (buildFactorCell labels)) level = true ↔
        labels.head? = some level) ∧
      (factorLevelKeep (some (buildFactorCell labels)) level = true →
        level ∈ labels) := by
  have main : factorLevelKeep (some (buildFactorCell labels)) level = true ↔
      labels.head? = some level := by
    cases labels with
    | nil =>
      simp only [factorLevelKeep, buildFactorCell, List.foldl_nil]
      constructor
      · intro h
        have : level ∈ ([[]] : List (List Char)) := by
          rw [← List.elem_iff]
          exact h
        simp at this
        exact absurd this hlev
      · intro h
        simp at h
    | cons l ls =>
      have hl1 : l ≠ [] := hhd l rfl
      have hlc : ',' ∉ l := hlab l (List.mem_cons_self l ls)
      have hlsc : ∀ x ∈ ls, ',' ∉ x := fun x hx => hlab x (List.mem_cons_of_mem l hx)
      simp only [factorLevelKeep]
      rw [buildFactorCell_cons l ls hl1, pySplit_factorCell l ls hlc hlsc]
      rw [show ((l :: ls.map (fun x => ' ' :: x)).contains level = true) ↔
            level ∈ l :: ls.map (fun x => ' ' :: x) from List.elem_iff]
      simp only [List.mem_cons, List.mem_map, List.head?_cons, Option.some.injEq]
      constructor
      · intro h
        rcases h with h | ⟨x, _, hx⟩
        · exact h.symm
        · exfalso
          apply hsp
          rw [← hx]
          rfl
      · intro h
        exact Or.inl h.symm
  refine ⟨main, fun h => ?_⟩
  have := main.mp h
  cases labels with
  | nil => simp at this
  | cons l ls =>
    simp only [List.head?_cons, Option.some.injEq] at this
    exact this ▸ List.mem_cons_self l ls

/-- Witness for `factor_filter_keeps_first_label`: filtering the cell
`"A, B"` on its first label `A` keeps the row. -/
theorem factor_filter_keeps_first_label_witness :
    (factorLevelKeep (some (buildFactorCell [['A'], ['B']])) ['A'] = true ↔
        ([['A'], ['B']] : List (List Char)).head? = some ['A']) ∧
      (factorLevelKeep (some (buildFactorCell [['A'], ['B']])) ['A'] = true →
        ['A'] ∈ [['A'], ['B']]) :=
  factor_filter_keeps_first_label [['A'], ['B']] ['A']
    (by decide) (by decide) (by decide) (by decide)

/-! ## URI/Name table (uri_name_manager/uri_name_table.py)

The global `uri_name_table` DataFrame with columns `URI`, `Name` is
modelled as a `List (String × String)` of rows in order; the
uninitialized state (`uri_name_table is None`) as an outer `Option`. -/

/-- A row of `uri_name_table`. -/
abbrev UriNameRow := String × String

/-- pandas `drop_duplicates(keep='first')` on full rows: keeps the first
occurrence of every value, in order. -/
def dropDuplicatesFirst [DecidableEq α] : List α → List α
  | [] => []
  | x :: xs => x :: (dropDuplicatesFirst xs).filter (fun y => decide (y ≠ x))

theorem mem_dropDuplicatesFirst [DecidableEq α] {a : α} :
    ∀ {l : List α}, a ∈ dropDuplicatesFirst l ↔ a ∈ l := by
  intro l
  induction l with
  | nil => simp [dropDuplicatesFirst]
  | cons x xs ih =>
    simp only [dropDuplicatesFirst, List.mem_cons, List.mem_filter, decide_eq_true_eq, ih]
    constructor
    · rintro (rfl | ⟨h, _⟩)
      · exact Or.inl rfl
      · exact Or.inr h
    · rintro (rfl | h)
      · exact Or.inl rfl
      · rcases eq_or_ne a x with rfl | hax
        · exact Or.inl rfl
        · exact Or.inr ⟨h, hax⟩

theorem nodup_dropDuplicatesFirst [DecidableEq α] :
    ∀ l : List α, (dropDuplicatesFirst l).Nodup := by
  intro l
  induction l with
  | nil => simp [dropDuplicatesFirst]
  | cons x xs ih =>
    rw [dropDuplicatesFirst, List.nodup_cons]
    constructor
    · intro hmem
      exact absurd rfl (of_decide_eq_true (List.mem_filter.mp hmem).2)
    · exact List.Nodup.filter _ ih

/-- `insert_into_uri_name` (uri_name_table.py lines 47-70) on an
initialized table:

```python
new_data = new_data[["URI", "Name"]]
combined_data = pd.concat([uri_name_table, new_data], ignore_index=True)
combined_data.drop_duplicates(subset=["URI", "Name"], keep='first', inplace=True)
unique_entries = combined_data[~combined_data.set_index(['URI', 'Name']).index.isin(
    uri_name_table.set_index(['URI', 'Name']).index)]
uri_name_table = pd.concat([uri_name_table, unique_entries], ignore_index=True)
```

(The trailing `check_uri_name_consistency()` call only warns; it does not
change the table — see `lookups_leave_table_unchanged`.) -/
def insert_into_uri_name (table new_data : List UriNameRow) : List UriNameRow :=
  let combined_data := dropDuplicatesFirst (table ++ new_data)
  let unique_entries := combined_data.filter (fun p => decide (p ∉ table))
  table ++ unique_entries

/-- Claim C5: `insert_into_uri_name` preserves the no-duplicate-pair
invariant; afterwards the set of (URI, Name) pairs is the prior set
united with the (distinct) pairs of `new_data`; and inserting the same
`new_data` a second time leaves the table unchanged. -/
theorem insert_into_uri_name_correct (table new_data : List UriNameRow)
    (hnd : table.Nodup) :
    (insert_into_uri_name table new_data).Nodup ∧
      (∀ p : UriNameRow,
        p ∈ insert_into_uri_name table new_data ↔ p ∈ table ∨ p ∈ new_data) ∧
      insert_into_uri_name (insert_into_uri_name table new_data) new_data =
        insert_into_uri_name table new_data := by
  refine ⟨?_, ?_, ?_⟩
  · rw [insert_into_uri_name, List.nodup_append]
    refine ⟨hnd, List.Nodup.filter _ (nodup_dropDuplicatesFirst _), ?_⟩
    intro p hp hq
    exact absurd hp (of_decide_eq_true (List.mem_filter.mp hq).2)
  · intro p
    simp only [insert_into_uri_name, List.mem_append, List.mem_filter,
      mem_dropDuplicatesFirst, decide_eq_true_eq]
    constructor
    · rintro (h | ⟨h, hnot⟩)
      · exact Or.inl h
      · rcases h with h | h
        · exact absurd h hnot
        · exact Or.inr h
    · rintro (h | h)
      · exact Or.inl h
      · rcases Classical.em (p ∈ table) with ht | ht
        · exact Or.inl ht
        · exact Or.inr ⟨Or.inr h, ht⟩
  · have hsub : ∀ p ∈ new_data, p ∈ insert_into_uri_name table new_data := by
      intro p hp
      simp only [insert_into_uri_name, List.mem_append, List.mem_filter,
        mem_dropDuplicatesFirst, decide_eq_true_eq]
      rcases Classical.em (p ∈ table) with ht | ht
      · exact Or.inl ht
      · exact Or.inr ⟨Or.inr hp, ht⟩
    conv =>
      lhs
      rw [insert_into_uri_name]
    have hempty :
        (dropDuplicatesFirst (insert_into_uri_name table new_data ++ new_data)).filter
            (fun p => decide (p ∉ insert_into_uri_name table new_data)) = [] := by
      rw [List.filter_eq_nil_iff]
      intro p hp
      rw [decide_eq_true_eq, not_not]
      rcases List.mem_append.mp (mem_dropDuplicatesFirst.mp hp) with h | h
      · exact h
      · exact hsub p h
    rw [hempty, List.append_nil]

/-- Witness for `insert_into_uri_name_correct` at a concrete table. -/
theorem insert_into_uri_name_correct_witness :
    (insert_into_uri_name [("u1", "n1")] [("u1", "n1"), ("u2", "n2"), ("u2", "n2")]).Nodup ∧
      (∀ p : UriNameRow,
        p ∈ insert_into_uri_name [("u1", "n1")] [("u1", "n1"), ("u2", "n2"), ("u2", "n2")] ↔
          p ∈ [("u1", "n1")] ∨ p ∈ [("u1", "n1"), ("u2", "n2"), ("u2", "n2")]) ∧
      insert_into_uri_name
          (insert_into_uri_name [("u1", "n1")] [("u1", "n1"), ("u2", "n2"), ("u2", "n2")])
          [("u1", "n1"), ("u2", "n2"), ("u2", "n2")] =
        insert_into_uri_name [("u1", "n1")] [("u1", "n1"), ("u2", "n2"), ("u2", "n2")] :=
  insert_into_uri_name_correct [("u1", "n1")] [("u1", "n1"), ("u2", "n2"), ("u2", "n2")]
    (by decide)

/-! ## replicate_scientific_objects (visualisation/replicate_scientific_objects.py, lines 8-95)

A DataFrame is a column-name list `cols` plus a row list; every row is
an association list from column name to cell.  A cell is `none` (NaN) or
a string (the values of the wide table are strings; `applymap(str)`
turns NaN into the string `"nan"`).  pandas `groupby` sorts the group
keys; the claim's partition properties are order-independent, so the
groups are listed here in first-occurrence order of their identifier. -/

/-- A cell of the scientific-object table: `none` is NaN. -/
abbrev OsCell := Option (List Char)

/-- A row: association list column name ↦ cell (missing column = NaN). -/
abbrev OsRow := List (String × OsCell)

/-- `df[col]` for one row. -/
def rowCell (r : OsRow) (c : String) : OsCell :=
  match r.lookup c with
  | some v => v
  | none => none

/-- The values of one column. -/
def colValues (rows : List OsRow) (c : String) : List OsCell :=
  rows.map (fun r => rowCell r c)

/-- `df[col].nunique(dropna=False)`: the number of distinct values of the
column, NaN counted as a value. -/
def nuniqueDropnaFalse (rows : List OsRow) (c : String) : Nat :=
  ((colValues rows c).dedup).length

/-- Lines 31-40: drop `URI` and `Name`, then drop the columns whose
values are all identical (`nunique(dropna=False) <= 1`). -/
def columns_to_compare (cols : List String) (rows : List OsRow) : List String :=
  (cols.filter (fun c => decide (c ≠ "URI" ∧ c ≠ "Name"))).filter
    (fun c => decide (1 < nuniqueDropnaFalse rows c))

/-- `applymap(str)` on one cell: NaN prints as `"nan"`. -/
def cellToStr : OsCell → List Char
  | none => ['n', 'a', 'n']
  | some s => s

/-- `remove_trailing_nans_from_identifier` (lines 46-53): split on `'_'`,
pop trailing `'nan'` parts, join with `'_'`. -/
def remove_trailing_nans_from_identifier (s : List Char) : List Char :=
  List.intercalate ['_']
    (((pySplit '_' s).reverse.dropWhile (fun p => decide (p = ['n', 'a', 'n']))).reverse)

/-- The cleaned group identifier of a row (lines 55-66): the `'_'`-join
of the stringified compare-column values, trailing `'nan'` parts
removed, the empty identifier replaced by `'NaN_group'`. -/
def group_identifier (cmp : List String) (r : OsRow) : List Char :=
  let raw := List.intercalate ['_'] (cmp.map (fun c => cellToStr (rowCell r c)))
  let cleaned := remove_trailing_nans_from_identifier raw
  if cleaned = [] then "NaN_group".toList else cleaned

/-- `replicate_scientific_objects` (lines 8-95): group the rows by their
cleaned identifier; each group keeps its rows in original order (the
added `group_identifier` column is dropped again, so rows are returned
unchanged). -/
def replicate_scientific_objects (cols : List String) (rows : List OsRow) :
    List (List Char × List OsRow) :=
  let cmp := columns_to_compare cols rows
  let keys := dropDuplicatesFirst (rows.map (group_identifier cmp))
  keys.map (fun g => (g, rows.filter (fun r => decide (group_identifier cmp r = g))))

theorem flatten_map_filter_perm [DecidableEq β] (f : α → β) :
    ∀ (keys : List β) (rows : List α), keys.Nodup → (∀ r ∈ rows, f r ∈ keys) →
      ((keys.map (fun g => rows.filter (fun r => decide (f r = g)))).flatten).Perm rows := by
  intro keys
  induction keys with
  | nil =>
    intro rows _ hcov
    cases rows with
    | nil => simp
    | cons r rs => exact absurd (hcov r (List.mem_cons_self r rs)) (List.not_mem_nil _)
  | cons g ks ih =>
    intro rows hnd hcov
    rw [List.map_cons, List.flatten_cons]
    have hnd' := List.nodup_cons.mp hnd
    have hcongr : ∀ g' ∈ ks,
        rows.filter (fun r => decide (f r = g')) =
          (rows.filter (fun r => !decide (f r = g))).filter
            (fun r => decide (f r = g')) := by
      intro g' hg'
      rw [List.filter_filter]
      apply List.filter_congr
      intro r _
      by_cases h : f r = g'
      · have hne : ¬f r = g := by
          intro hh
          apply hnd'.1
          rw [show g = g' from hh.symm.trans h]
          exact hg'
        simp [h, hne]
        intro hh
        exact hnd'.1 (hh ▸ hg')
      · simp [h]
    rw [List.map_congr_left hcongr]
    have hperm := ih (rows.filter (fun r => !decide (f r = g))) hnd'.2 ?cov
    case cov =>
      intro r hr
      have hmem := List.mem_filter.mp hr
      have hneg : ¬f r = g := by
        intro hh
        rw [hh] at hmem
        simp at hmem
      rcases List.mem_cons.mp (hcov r hmem.1) with h | h
      · exact absurd h hneg
      · exact h
    exact (hperm.append_left _).trans (List.filter_append_perm _ rows)

/-- Claim C6: the groups returned by `replicate_scientific_objects`
partition the input rows — pairwise disjoint, their union is exactly the
rows of `df` — and two rows fall in the same group if and only if they
yield the same cleaned group identifier. -/
theorem replicate_scientific_objects_partition (cols : List String) (rows : List OsRow) :
    (∀ g₁ G₁ g₂ G₂, (g₁, G₁) ∈ replicate_scientific_objects cols rows →
        (g₂, G₂) ∈ replicate_scientific_objects cols rows → g₁ ≠ g₂ →
        ∀ r ∈ G₁, r ∉ G₂) ∧
      ((replicate_scientific_objects cols rows).map Prod.snd).flatten.Perm rows ∧
      (∀ r₁ ∈ rows, ∀ r₂ ∈ rows,
        ((∃ g G, (g, G) ∈ replicate_scientific_objects cols rows ∧ r₁ ∈ G ∧ r₂ ∈ G) ↔
          group_identifier (columns_to_compare cols rows) r₁ =
            group_identifier (columns_to_compare cols rows) r₂)) := by
  have hmem : ∀ {g : List Char} {G : List OsRow},
      (g, G) ∈ replicate_scientific_objects cols rows →
        g ∈ dropDuplicatesFirst (rows.map (group_identifier (columns_to_compare cols rows))) ∧
          G = rows.filter
            (fun r => decide (group_identifier (columns_to_compare cols rows) r = g)) := by
    intro g G h
    rw [replicate_scientific_objects] at h
    rcases List.mem_map.mp h with ⟨a, ha, heq⟩
    obtain ⟨rfl, rfl⟩ := Prod.mk.injEq .. ▸ heq
    exact ⟨ha, rfl⟩
  have hcov : ∀ r ∈ rows,
      group_identifier (columns_to_compare cols rows) r ∈
        dropDuplicatesFirst (rows.map (group_identifier (columns_to_compare cols rows))) := by
    intro r hr
    exact mem_dropDuplicatesFirst.mpr (List.mem_map_of_mem _ hr)
  refine ⟨?_, ?_, ?_⟩
  · intro g₁ G₁ g₂ G₂ h₁ h₂ hne r hr₁ hr₂
    obtain ⟨-, rfl⟩ := hmem h₁
    obtain ⟨-, rfl⟩ := hmem h₂
    apply hne
    have e₁ := of_decide_eq_true (List.mem_filter.mp hr₁).2
    have e₂ := of_decide_eq_true (List.mem_filter.mp hr₂).2
    exact e₁.symm.trans e₂
  · rw [replicate_scientific_objects, List.map_map]
    exact flatten_map_filter_perm _ _ rows (nodup_dropDuplicatesFirst _) hcov
  · intro r₁ hr₁ r₂ hr₂
    constructor
    · rintro ⟨g, G, hG, h₁, h₂⟩
      obtain ⟨-, rfl⟩ := hmem hG
      have e₁ := of_decide_eq_true (List.mem_filter.mp h₁).2
      have e₂ := of_decide_eq_true (List.mem_filter.mp h₂).2
      exact e₁.trans e₂.symm
    · intro h
      refine ⟨group_identifier (columns_to_compare cols rows) r₁,
        rows.filter
          (fun r => decide (group_identifier (columns_to_compare cols rows) r =
            group_identifier (columns_to_compare cols rows) r₁)), ?_, ?_, ?_⟩
      · rw [replicate_scientific_objects]
        exact List.mem_map_of_mem _ (hcov r₁ hr₁)
      · exact List.mem_filter.mpr ⟨hr₁, decide_eq_true rfl⟩
      · exact List.mem_filter.mpr ⟨hr₂, decide_eq_true h.symm⟩

/-- Witness for `replicate_scientific_objects_partition`: a concrete
three-row table whose groups flatten back to a permutation of its rows. -/
theorem replicate_scientific_objects_partition_witness :
    ((replicate_scientific_objects ["URI", "Name", "T"]
        [[("URI", some "u1".toList), ("Name", some "n1".toList), ("T", some ['a'])],
         [("URI", some "u2".toList), ("Name", some "n2".toList), ("T", some ['b'])],
         [("URI", some "u3".toList), ("Name", some "n3".toList),
          ("T", some ['a'])]]).map Prod.snd).flatten.Perm
      [[("URI", some "u1".toList), ("Name", some "n1".toList), ("T", some ['a'])],
       [("URI", some "u2".toList), ("Name", some "n2".toList), ("T", some ['b'])],
       [("URI", some "u3".toList), ("Name", some "n3".toList), ("T", some ['a'])]] :=
  (replicate_scientific_objects_partition _ _).2.1

/-! ## export_data_by_variable_to_csv (experiment/chunk_data_exp.py, lines 179-245)

`var_exp` is the variable table; each row is its `URI` cell (possibly
NaN) and its `Name`.  The function groups the records of `data` by
variable URI into a `defaultdict` (keys in first-occurrence order), then
builds one DataFrame per group and stores it in a Python dict under the
key `f'df_{variable_name}'`.  The CSV side effect (`df.to_csv`) is not
modelled; the returned dictionary is.  The early `return` statements
with no value (lines 195, 199, 220) yield Python `None`, modelled as
`Option.none`. -/

/-- A row of the `var_exp` table: (`URI` cell, `Name`). -/
abbrev VarExpRow := Option String × String

/-- `var_exp['URI'].dropna().tolist()` (line 209). -/
def variablesOf (var_exp : List VarExpRow) : List String :=
  var_exp.filterMap (fun rc => rc.1)

/-- `var_exp.set_index('URI')['Name'].to_dict()` (line 205): on duplicate
URIs the last row wins. -/
def uriToNameLast (var_exp : List VarExpRow) (u : String) : Option String :=
  ((var_exp.filter (fun rc => decide (rc.1 = some u))).getLast?).map (fun rc => rc.2)

/-- `variable.split('/')[-1]` (line 231).  `split` never returns an
empty list, so the default of `getLastD` is unreachable. -/
def uriShortName (u : String) : String :=
  (pySplitStr '/' u).getLastD ""

/-- `uri_to_name.get(variable, variable.split('/')[-1])` (line 231). -/
def variable_name_of (var_exp : List VarExpRow) (u : String) : String :=
  match uriToNameLast var_exp u with
  | some n => n
  | none => uriShortName u

/-- The DataFrame built for one variable (line 234): column names and
the (target, value, date) rows. -/
structure VarDF where
  columns : List String
  rows : List (String × String × String)
deriving DecidableEq

/-- Python dict assignment `d[k] = v`: replaces the value in place if the
key exists (keeping the key's original position), else appends. -/
def dictSet (m : List (String × VarDF)) (k : String) (v : VarDF) :
    List (String × VarDF) :=
  if (m.map Prod.fst).contains k then
    m.map (fun kv => if kv.1 = k then (k, v) else kv)
  else m ++ [(k, v)]

/-- `export_data_by_variable_to_csv` (lines 179-245), without the CSV
side effect. -/
def export_data_by_variable (var_exp : List VarExpRow) (data : List DataRecord) :
    Option (List (String × VarDF)) :=
  if var_exp = [] then none
  else if data = [] then none
  else
    let vars_list := variablesOf var_exp
    let filtered := data.filter
      (fun i => vars_list.isEmpty || vars_list.contains i.varUri)
    let keys := dropDuplicatesFirst (filtered.map (fun i => i.varUri))
    if keys = [] then none
    else
      some (keys.foldl
        (fun m u =>
          dictSet m ("df_" ++ variable_name_of var_exp u)
            ⟨["URI", variable_name_of var_exp u, "Date"],
              (filtered.filter (fun i => decide (i.varUri = u))).map
                (fun i => (i.target, i.value, i.date))⟩) [])

/-- The distinct variable URIs occurring in `data` and listed among the
(non-null) URIs of `var_exp`, in first-occurrence order. -/
def matched_variable_uris (var_exp : List VarExpRow) (data : List DataRecord) :
    List String :=
  dropDuplicatesFirst
    ((data.filter (fun i => (variablesOf var_exp).contains i.varUri)).map
      (fun i => i.varUri))

/-- Counterexample to claim C7: `var_exp` lists two distinct variable
URIs `u1`, `u2` that share the name `X`, and `data` holds one record of
each; the returned dictionary has a single entry (`'df_X'`, the second
variable's DataFrame overwriting the first), not one DataFrame per
distinct variable URI of the data. -/
theorem export_data_one_df_per_name_not_per_uri :
    export_data_by_variable [(some "u1", "X"), (some "u2", "X")]
        [⟨"t1", "u1", "v1", "d1"⟩, ⟨"t2", "u2", "v2", "d2"⟩] =
      some [("df_X", ⟨["URI", "X", "Date"], [("t2", "v2", "d2")]⟩)] ∧
      matched_variable_uris [(some "u1", "X"), (some "u2", "X")]
          [⟨"t1", "u1", "v1", "d1"⟩, ⟨"t2", "u2", "v2", "d2"⟩] = ["u1", "u2"] := by
  exact ⟨by decide, by decide⟩

theorem df_prefix_injective : Function.Injective (fun s : String => "df_" ++ s) := by
  intro a b h
  apply String.ext
  have h2 : ("df_" ++ a).data = ("df_" ++ b).data := congrArg String.data h
  simp only [String.data_append] at h2
  exact List.append_cancel_left h2

theorem dictSet_fresh (m : List (String × VarDF)) (k : String) (v : VarDF)
    (h : k ∉ m.map Prod.fst) : dictSet m k v = m ++ [(k, v)] := by
  rw [dictSet, if_neg]
  intro hc
  exact h (List.elem_iff.mp hc)

theorem export_foldl_eq (var_exp : List VarExpRow) (filtered : List DataRecord) :
    ∀ (us : List String) (m : List (String × VarDF)),
      (us.map (fun u => "df_" ++ variable_name_of var_exp u)).Nodup →
      (∀ u ∈ us, ("df_" ++ variable_name_of var_exp u) ∉ m.map Prod.fst) →
      us.foldl
          (fun m u =>
            dictSet m ("df_" ++ variable_name_of var_exp u)
              ⟨["URI", variable_name_of var_exp u, "Date"],
                (filtered.filter (fun i => decide (i.varUri = u))).map
                  (fun i => (i.target, i.value, i.date))⟩) m =
        m ++ us.map
          (fun u =>
            ("df_" ++ variable_name_of var_exp u,
              ⟨["URI", variable_name_of var_exp u, "Date"],
                (filtered.filter (fun i => decide (i.varUri = u))).map
                  (fun i => (i.target, i.value, i.date))⟩)) := by
  intro us
  induction us with
  | nil => intro m _ _; simp
  | cons u us ih =>
    intro m hnd hf
    rw [List.map_cons, List.nodup_cons] at hnd
    rw [List.foldl_cons, dictSet_fresh m _ _ (hf u (List.mem_cons_self u us))]
    rw [ih (m ++ [_]) hnd.2 ?fresh]
    · simp
    case fresh =>
      intro u' hu'
      rw [List.map_append, List.mem_append]
      rintro (h | h)
      · exact hf u' (List.mem_cons_of_mem u hu') h
      · simp only [List.map_cons, List.map_nil, List.mem_singleton] at h
        exact hnd.1 (h ▸ List.mem_map_of_mem (fun u => "df_" ++ variable_name_of var_exp u) hu')

/-- Claim C7 as amended: under the additional hypotheses that `var_exp`
lists at least one non-null variable URI and that the variable names of
the distinct matched URIs are pairwise distinct (the dictionary is keyed
by `df_{name}`, so two URIs sharing a name collide and the later
DataFrame overwrites the earlier), `export_data_by_variable_to_csv`
returns one DataFrame per distinct variable URI occurring in `data` and
listed in `var_exp`'s URIs, keyed `df_{name}`, with columns
`['URI', name, 'Date']` and exactly that variable's (target, value,
date) triples in input order. -/
theorem export_data_by_variable_correct
    (var_exp : List VarExpRow) (data : List DataRecord)
    (hv : variablesOf var_exp ≠ [])
    (hk : matched_variable_uris var_exp data ≠ [])
    (hinj : ((matched_variable_uris var_exp data).map (variable_name_of var_exp)).Nodup) :
    export_data_by_variable var_exp data =
      some ((matched_variable_uris var_exp data).map
        (fun u =>
          ("df_" ++ variable_name_of var_exp u,
            ⟨["URI", variable_name_of var_exp u, "Date"],
              (data.filter (fun i => decide (i.varUri = u))).map
                (fun i => (i.target, i.value, i.date))⟩))) := by
  have hve : var_exp ≠ [] := by
    intro h
    exact hv (by rw [h]; rfl)
  have hdata : data ≠ [] := by
    intro h
    exact hk (by rw [h]; rfl)
  have hemp : (variablesOf var_exp).isEmpty = false := by
    cases h : (variablesOf var_exp).isEmpty
    · rfl
    · exact absurd (List.isEmpty_iff.mp h) hv
  have hfil : data.filter
        (fun i => (variablesOf var_exp).isEmpty || (variablesOf var_exp).contains i.varUri) =
      data.filter (fun i => (variablesOf var_exp).contains i.varUri) := by
    apply List.filter_congr
    intro i _
    rw [hemp, Bool.false_or]
  have hcontains : ∀ u ∈ matched_variable_uris var_exp data,
      (variablesOf var_exp).contains u = true := by
    intro u hu
    rcases List.mem_map.mp (mem_dropDuplicatesFirst.mp hu) with ⟨i, hi, rfl⟩
    exact (List.mem_filter.mp hi).2
  have hrows : ∀ u ∈ matched_variable_uris var_exp data,
      (data.filter (fun i => (variablesOf var_exp).contains i.varUri)).filter
          (fun i => decide (i.varUri = u)) =
        data.filter (fun i => decide (i.varUri = u)) := by
    intro u hu
    rw [List.filter_filter]
    apply List.filter_congr
    intro i _
    by_cases h : i.varUri = u
    · rw [h, hcontains u hu]
      simp
    · simp [h]
  have hnd : ((matched_variable_uris var_exp data).map
      (fun u => "df_" ++ variable_name_of var_exp u)).Nodup := by
    have h1 := hinj.map df_prefix_injective
    rw [List.map_map] at h1
    exact h1
  rw [export_data_by_variable, if_neg hve, if_neg hdata]
  simp only [hfil]
  rw [show dropDuplicatesFirst
      ((data.filter (fun i => (variablesOf var_exp).contains i.varUri)).map
        (fun i => i.varUri)) = matched_variable_uris var_exp data from rfl]
  rw [if_neg hk, export_foldl_eq var_exp
    (data.filter (fun i => (variablesOf var_exp).contains i.varUri))
    (matched_variable_uris var_exp data) [] hnd (by intro u _ h; exact absurd h (by simp))]
  rw [List.nil_append]
  congr 1
  apply List.map_congr_left
  intro u hu
  rw [hrows u hu]

/-- Witness for `export_data_by_variable_correct` at a concrete variable
table and record list. -/
theorem export_data_by_variable_correct_witness :
    export_data_by_variable [(some "u", "X")] [⟨"t", "u", "v", "d"⟩] =
      some ((matched_variable_uris [(some "u", "X")] [⟨"t", "u", "v", "d"⟩]).map
        (fun u =>
          ("df_" ++ variable_name_of [(some "u", "X")] u,
            ⟨["URI", variable_name_of [(some "u", "X")] u, "Date"],
              (([⟨"t", "u", "v", "d"⟩] : List DataRecord).filter
                (fun i => decide (i.varUri = u))).map
                (fun i => (i.target, i.value, i.date))⟩))) :=
  export_data_by_variable_correct [(some "u", "X")] [⟨"t", "u", "v", "d"⟩]
    (by decide) (by decide) (by decide)

/-! ## login (auth/auth.py, lines 50-103)

The authentication POST is modelled by its outcome: either a decoded
response (status code, the token of `result.token`, and the error
message of `result.message`) or a raised
`requests.exceptions.RequestException`.  The `init_uri_name(save=True)`
side effect after a successful login is outside this model. -/

/-- Outcome of `requests.post(auth_url, json=credentials)`. -/
inductive AuthOutcome where
  | resp (status : Nat) (token : String) (message : String)
  | netExc (msg : String)

/-- The exceptions `login` can raise. -/
inductive LoginError where
  | valueError (msg : String)
  | authenticationError (msg : String)
deriving DecidableEq

/-- The session dictionary returned on success (auth.py lines 88-94). -/
structure Session where
  token : String
  url_rest : String
  url_graphql : String
  headers_graphql : List (String × String)
  headers_rest : List (String × String)
deriving DecidableEq

/-- Python `s.rstrip("/")` (auth.py lines 55-56). -/
def rstripSlash (s : String) : String :=
  ⟨(s.toList.reverse.dropWhile (fun c => decide (c = '/'))).reverse⟩

/-- `login` (auth.py lines 50-103): validate the four arguments
(`not all([...])`, empty strings being falsy), then on a 2xx response
build the Bearer headers and the session dictionary; on any other
status raise `AuthenticationError`; on a network exception raise
`AuthenticationError`. -/
def login (username password instance_rest url_graphql : String)
    (outcome : AuthOutcome) : Except LoginError Session :=
  if username = "" ∨ password = "" ∨ instance_rest = "" ∨ url_graphql = "" then
    Except.error (LoginError.valueError
      "Tous les paramètres (nom d'utilisateur, mot de passe, instance REST, et URL GraphQL) sont requis.")
  else
    match outcome with
    | AuthOutcome.resp status token message =>
      if 200 ≤ status ∧ status < 300 then
        Except.ok
          ⟨token, rstripSlash instance_rest, rstripSlash url_graphql,
            [("Authorization", "Bearer " ++ token),
             ("Content-Type", "application/json")],
            [("Authorization", "Bearer " ++ token)]⟩
      else
        Except.error (LoginError.authenticationError
          ("Authentication failed: " ++ message))
    | AuthOutcome.netExc e =>
      Except.error (LoginError.authenticationError
        ("An error occurred during authentication: " ++ e))

/-- Claim C8: with non-empty arguments, `login` returns a dictionary
carrying the server's token and the Bearer-token headers if and only if
the authentication POST's status code lies in `[200, 300)`; on any other
status code, and on a requests exception, it raises
`AuthenticationError`; with a missing (empty) argument it raises
`ValueError`. -/
theorem login_spec (username password instance_rest url_graphql : String)
    (outcome : AuthOutcome) :
    ((username ≠ "" ∧ password ≠ "" ∧ instance_rest ≠ "" ∧ url_graphql ≠ "") →
      ((∀ status token message,
          ((∃ s, login username password instance_rest url_graphql
                (AuthOutcome.resp status token message) = Except.ok s ∧
              s.token = token ∧
              s.headers_graphql =
                [("Authorization", "Bearer " ++ token),
                 ("Content-Type", "application/json")] ∧
              s.headers_rest = [("Authorization", "Bearer " ++ token)]) ↔
            (200 ≤ status ∧ status < 300))) ∧
        (∀ status token message, ¬(200 ≤ status ∧ status < 300) →
          login username password instance_rest url_graphql
              (AuthOutcome.resp status token message) =
            Except.error (LoginError.authenticationError
              ("Authentication failed: " ++ message))) ∧
        (∀ e, login username password instance_rest url_graphql
            (AuthOutcome.netExc e) =
          Except.error (LoginError.authenticationError
            ("An error occurred during authentication: " ++ e))))) ∧
      ((username = "" ∨ password = "" ∨ instance_rest = "" ∨ url_graphql = "") →
        ∃ msg, login username password instance_rest url_graphql outcome =
          Except.error (LoginError.valueError msg)) := by
  constructor
  · rintro ⟨h1, h2, h3, h4⟩
    have hne : ¬(username = "" ∨ password = "" ∨ instance_rest = "" ∨ url_graphql = "") := by
      rintro (h | h | h | h)
      exacts [h1 h, h2 h, h3 h, h4 h]
    refine ⟨?_, ?_, ?_⟩
    · intro status token message
      constructor
      · rintro ⟨s, hs, -, -, -⟩
        by_cases hr : 200 ≤ status ∧ status < 300
        · exact hr
        · exfalso
          simp only [login, if_neg hne, if_neg hr] at hs
          exact Except.noConfusion hs
      · intro hr
        refine ⟨⟨token, rstripSlash instance_rest, rstripSlash url_graphql,
          [("Authorization", "Bearer " ++ token),
           ("Content-Type", "application/json")],
          [("Authorization", "Bearer " ++ token)]⟩, ?_, rfl, rfl, rfl⟩
        simp only [login, if_neg hne, if_pos hr]
    · intro status token message hr
      simp only [login, if_neg hne, if_neg hr]
    · intro e
      simp only [login, if_neg hne]
  · intro h
    refine ⟨"Tous les paramètres (nom d'utilisateur, mot de passe, instance REST, et URL GraphQL) sont requis.", ?_⟩
    simp only [login]
    rw [if_pos h]

/-- Witness for `login_spec` at concrete arguments and a 2xx response. -/
theorem login_spec_witness :
    (("alice" : String) ≠ "" ∧ ("pw" : String) ≠ "" ∧
        ("http://host/rest/" : String) ≠ "" ∧ ("http://host/graphql" : String) ≠ "") ∧
      (∃ s, login "alice" "pw" "http://host/rest/" "http://host/graphql"
            (AuthOutcome.resp 200 "tok" "") = Except.ok s ∧
          s.token = "tok" ∧
          s.headers_graphql =
            [("Authorization", "Bearer " ++ "tok"),
             ("Content-Type", "application/json")] ∧
          s.headers_rest = [("Authorization", "Bearer " ++ "tok")]) := by
  have h : ("alice" : String) ≠ "" ∧ ("pw" : String) ≠ "" ∧
      ("http://host/rest/" : String) ≠ "" ∧ ("http://host/graphql" : String) ≠ "" := by
    refine ⟨?_, ?_, ?_, ?_⟩ <;> decide
  exact ⟨h, (((login_spec "alice" "pw" "http://host/rest/" "http://host/graphql"
    (AuthOutcome.resp 200 "tok" "")).1 h).1 200 "tok" "").mpr (by decide)⟩

/-! ## Read-only lookups on uri_name_table (uri_name_table.py, lines 72-160)

The mutable global `uri_name_table` is modelled by explicit state
passing: every operation returns the table state after the call next to
its result, and raising is the `Except.error` result.  The bodies below
mirror the sources, which declare `global uri_name_table` but never
assign to it. -/

/-- The state of the global table: `none` before `init_uri_name`. -/
abbrev UriNameTable := List UriNameRow

/-- The URIs associated with more than one distinct name
(`uri_name_table.groupby("URI")["Name"].nunique() > 1`, lines 84-90). -/
def urisWithMultipleNames (t : UriNameTable) : List String :=
  ((t.map Prod.fst).dedup).filter
    (fun u => decide (1 < ((t.filter (fun p => decide (p.1 = u))).map Prod.snd).dedup.length))

/-- The names associated with more than one distinct URI (lines 94-100). -/
def namesWithMultipleUris (t : UriNameTable) : List String :=
  ((t.map Prod.snd).dedup).filter
    (fun n => decide (1 < ((t.filter (fun p => decide (p.2 = n))).map Prod.fst).dedup.length))

/-- `check_uri_name_consistency` (lines 72-100): raises if the table is
uninitialized; otherwise only computes and emits warnings (returned here
as the list of offending URIs and names). -/
def check_uri_name_consistency (st : Option UriNameTable) :
    Option UriNameTable × Except String (List String) :=
  match st with
  | none => (none, Except.error
      "Error: The uri_name_table is not initialized. Call init_uri_name() first.")
  | some t => (some t, Except.ok (urisWithMultipleNames t ++ namesWithMultipleUris t))

/-- `getURIbyName` (lines 102-130): raises `ValueError` when the table is
uninitialized, the name is empty, no URI row matches, or several rows
match; otherwise returns the unique matching URI. -/
def getURIbyName (st : Option UriNameTable) (name : String) :
    Option UriNameTable × Except String String :=
  match st with
  | none => (none, Except.error "Error: The uri_name_table is not initialized.")
  | some t =>
    if name = "" then (some t, Except.error "Error: The name cannot be empty.")
    else
      match (t.filter (fun p => decide (p.2 = name))).map Prod.fst with
      | [] => (some t, Except.error ("Error: No URI found for '" ++ name ++ "'."))
      | [u] => (some t, Except.ok u)
      | _ => (some t, Except.error ("Error: Multiple URIs found for '" ++ name ++ "'."))

/-- `getNamesByURI` (lines 132-160): raises only when the table is
uninitialized; an empty URI or no match warns and returns `[]`; several
matches warn and return them all. -/
def getNamesByURI (st : Option UriNameTable) (uri : String) :
    Option UriNameTable × Except String (List String) :=
  match st with
  | none => (none, Except.error
      "Error: The uri_name_table is not initialized. Call init_uri_name() first.")
  | some t =>
    if uri = "" then (some t, Except.ok [])
    else (some t, Except.ok ((t.filter (fun p => decide (p.1 = uri))).map Prod.snd))

/-- Claim C9: `check_uri_name_consistency`, `getURIbyName` and
`getNamesByURI` never modify `uri_name_table` — whether they return or
raise, the table state after the call equals the state before. -/
theorem lookups_leave_table_unchanged (st : Option UriNameTable) (name uri : String) :
    (check_uri_name_consistency st).1 = st ∧
      (getURIbyName st name).1 = st ∧
      (getNamesByURI st uri).1 = st := by
  cases st with
  | none => exact ⟨rfl, rfl, rfl⟩
  | some t =>
    refine ⟨rfl, ?_, ?_⟩
    · rw [getURIbyName]
      by_cases h : name = ""
      · rw [if_pos h]
      · rw [if_neg h]
        cases hl : (t.filter (fun p => decide (p.2 = name))).map Prod.fst with
        | nil => rfl
        | cons u us =>
          cases us with
          | nil => rfl
          | cons v vs => rfl
    · rw [getNamesByURI]
      by_cases h : uri = ""
      · rw [if_pos h]
      · rw [if_neg h]

theorem uris_of_name_nodup (t : UriNameTable) (name : String) (hnd : t.Nodup) :
    ((t.filter (fun p => decide (p.2 = name))).map Prod.fst).Nodup := by
  apply List.Nodup.map_on
  · intro x hx y hy hxy
    have ex : x.2 = name := of_decide_eq_true (List.mem_filter.mp hx).2
    have ey : y.2 = name := of_decide_eq_true (List.mem_filter.mp hy).2
    exact Prod.ext hxy (ex.trans ey.symm)
  · exact hnd.filter _

/-- Claim C10: on a duplicate-free table, `getURIbyName` raises
`ValueError` if and only if the given name is empty, maps to no URI, or
maps to more than one (distinct) URI; otherwise it returns the unique
URI paired with that name. -/
theorem getURIbyName_value_error_iff (t : UriNameTable) (name : String)
    (hnd : t.Nodup) :
    ((∃ msg, (getURIbyName (some t) name).2 = Except.error msg) ↔
        (name = "" ∨ ((t.filter (fun p => decide (p.2 = name))).map Prod.fst) = [] ∨
          ∃ u₁ u₂, u₁ ≠ u₂ ∧
            u₁ ∈ (t.filter (fun p => decide (p.2 = name))).map Prod.fst ∧
            u₂ ∈ (t.filter (fun p => decide (p.2 = name))).map Prod.fst)) ∧
      (∀ u, (getURIbyName (some t) name).2 = Except.ok u ↔
        (name ≠ "" ∧ (t.filter (fun p => decide (p.2 = name))).map Prod.fst = [u])) := by
  by_cases hname : name = ""
  · constructor
    · constructor
      · intro _
        exact Or.inl hname
      · intro _
        rw [getURIbyName, if_pos hname]
        exact ⟨_, rfl⟩
    · intro u
      rw [getURIbyName, if_pos hname]
      constructor
      · intro h
        exact Except.noConfusion h
      · rintro ⟨h, -⟩
        exact absurd hname h
  · rw [getURIbyName, if_neg hname]
    cases hl : (t.filter (fun p => decide (p.2 = name))).map Prod.fst with
    | nil =>
      refine ⟨⟨fun _ => Or.inr (Or.inl rfl), fun _ => ⟨_, rfl⟩⟩, ?_⟩
      intro u
      constructor
      · intro h
        exact Except.noConfusion h
      · rintro ⟨-, h⟩
        exact List.noConfusion h
    | cons u₀ us =>
      cases us with
      | nil =>
        refine ⟨⟨?_, ?_⟩, ?_⟩
        · rintro ⟨msg, hmsg⟩
          exact Except.noConfusion hmsg
        · rintro (h | h | ⟨u₁, u₂, hne, h₁, h₂⟩)
          · exact absurd h hname
          · exact List.noConfusion h
          · rw [List.mem_singleton] at h₁ h₂
            exact absurd (h₁.trans h₂.symm) hne
        · intro u
          constructor
          · intro h
            have : u₀ = u := Except.ok.inj h
            exact ⟨hname, by rw [this]⟩
          · rintro ⟨-, h⟩
            have : u₀ = u := (List.cons.inj h).1
            rw [this]
      | cons u₁ us' =>
        have hnodup : (u₀ :: u₁ :: us').Nodup := hl ▸ uris_of_name_nodup t name hnd
        have hne : u₀ ≠ u₁ := by
          intro h
          rw [List.nodup_cons] at hnodup
          exact hnodup.1 (h ▸ List.mem_cons_self u₁ us')
        refine ⟨⟨?_, fun _ => ⟨_, rfl⟩⟩, ?_⟩
        · intro _
          exact Or.inr (Or.inr ⟨u₀, u₁, hne, List.mem_cons_self _ _,
            List.mem_cons_of_mem _ (List.mem_cons_self _ _)⟩)
        · intro u
          constructor
          · intro h
            exact Except.noConfusion h
          · rintro ⟨-, h⟩
            have := (List.cons.inj h).2
            exact List.noConfusion this

/-- Witness for `getURIbyName_value_error_iff` at a concrete one-row
table: the unique URI of name `n` is returned. -/
theorem getURIbyName_value_error_iff_witness :
    ((∃ msg, (getURIbyName (some [("u1", "n")]) "n").2 = Except.error msg) ↔
        (("n" : String) = "" ∨
          (([("u1", "n")] : UriNameTable).filter
            (fun p => decide (p.2 = "n"))).map Prod.fst = [] ∨
          ∃ u₁ u₂, u₁ ≠ u₂ ∧
            u₁ ∈ (([("u1", "n")] : UriNameTable).filter
              (fun p => decide (p.2 = "n"))).map Prod.fst ∧
            u₂ ∈ (([("u1", "n")] : UriNameTable).filter
              (fun p => decide (p.2 = "n"))).map Prod.fst)) ∧
      (∀ u, (getURIbyName (some [("u1", "n")]) "n").2 = Except.ok u ↔
        (("n" : String) ≠ "" ∧
          (([("u1", "n")] : UriNameTable).filter
            (fun p => decide (p.2 = "n"))).map Prod.fst = [u])) :=
  getURIbyName_value_error_iff [("u1", "n")] "n" (by decide)
